import Mathlib

/-!
Verification of the Question/Answer semantic cache of `inquisitor-search`.

The repository ships `inquisitor.py` (the CLI driving the cache), `llm.py`
and `setup.py`. The cache module itself (`cache.py`, providing `QACache` and
`CachedQA`) is declared in `setup.py` and consumed by `inquisitor.py`, but its
source is not available here; its operations are therefore modelled from the
specification, while `process_query`, `cache_stats_command` and the other CLI
entry points are embedded directly from `inquisitor.py`.
-/

namespace Inquisitor

/-- One web search result, as produced by the search provider and consumed by
the cache (`{title, url, snippet}` records). -/
structure SearchResult where
  title : String
  url : String
  snippet : String
deriving DecidableEq, Repr

/-- Modelled from the spec: `CachedQA` (one resolved question/answer pair) with
fields `question`, `answer`, `search_results` (the field name `inquisitor.py`
reads as `qa.search_results`) and `timestamp` (an ISO-8601 string). -/
structure CachedQA where
  question : String
  answer : String
  search_results : List SearchResult
  timestamp : String
deriving DecidableEq, Repr

/-- Split a character list into maximal whitespace-free fragments, dropping
empty ones; `cur` accumulates the current fragment in reverse. -/
def splitWS (cs : List Char) (cur : List Char) : List (List Char) :=
  match cs with
  | [] => if cur = [] then [] else [cur.reverse]
  | c :: rest =>
    if c.isWhitespace then
      (if cur = [] then splitWS rest [] else cur.reverse :: splitWS rest [])
    else splitWS rest (c :: cur)

/-- The word tokens of a question: lower-cased and split on whitespace. -/
def tokens (s : String) : List String :=
  (splitWS (s.data.map Char.toLower) []).map (fun l => String.mk l)

/-- Modelled from the spec: case folding plus whitespace folding of a question
string — lower-case the string, split on whitespace, drop empty fragments and
rejoin with single spaces. -/
def normalize (s : String) : String :=
  String.intercalate " " (tokens s)

/-- Modelled from the spec: `QACache.find_exact_match(query)` scans the whole
collection comparing normalized questions and returns the most recent match
(last-write-wins), else absent.  Scanning the reversed insertion-ordered
collection for the first match returns the most recent one. -/
def find_exact_match (entries : List CachedQA) (query : String) : Option CachedQA :=
  entries.reverse.find? (fun e => decide (normalize e.question = normalize query))

/-- The deduplicated token set of a question: lower-cased, split on
whitespace, empty fragments dropped. -/
def tokenSet (s : String) : Finset String :=
  (tokens s).toFinset

/-- Modelled from the spec: the similarity metric.  The spec leaves the exact
metric an implementation choice (naming token-overlap ratio as an admissible
one) constrained to be in `[0,1]`, symmetric, reflexive, defined on empty
strings, case-insensitive and whitespace-normalizing; we model it as the
Jaccard ratio of the normalized token sets, with the empty/empty pair mapped
to 1. -/
def similarity (a b : String) : ℚ :=
  if tokenSet a = ∅ ∧ tokenSet b = ∅ then 1
  else mkRat ((tokenSet a ∩ tokenSet b).card : Int) ((tokenSet a ∪ tokenSet b).card)

/-- Insert a scored entry into a descending-sorted list, after every element
of strictly greater score and before the first element of smaller-or-equal
score, so that earlier-inserted elements keep their place on ties. -/
def insertDesc (p : CachedQA × ℚ) : List (CachedQA × ℚ) → List (CachedQA × ℚ)
  | [] => [p]
  | q :: l => if p.2 < q.2 then q :: insertDesc p l else p :: q :: l

/-- Stable insertion sort by descending score. -/
def sortDesc : List (CachedQA × ℚ) → List (CachedQA × ℚ)
  | [] => []
  | p :: l => insertDesc p (sortDesc l)

/-- The scored collection: every entry paired with its similarity to the
query, in insertion order. -/
def scoreAll (query : String) (entries : List CachedQA) : List (CachedQA × ℚ) :=
  entries.map (fun e => (e, similarity query e.question))

/-- The scored entries clearing the threshold, still in insertion order. -/
def aboveThreshold (query : String) (entries : List CachedQA) (min_similarity : ℚ) :
    List (CachedQA × ℚ) :=
  (scoreAll query entries).filter (fun p => decide (min_similarity ≤ p.2))

/-- Modelled from the spec: the Similarity Engine's `rank` — score every
entry, retain those with score at or above `min_similarity`, sort descending
by score with a stable sort, truncate to `max_results`. -/
def rank (query : String) (entries : List CachedQA) (min_similarity : ℚ)
    (max_results : Nat) : List (CachedQA × ℚ) :=
  (sortDesc (aboveThreshold query entries min_similarity)).take max_results

/-- The cache error taxonomy of the spec. -/
inductive CacheError where
  | invalidArgument
  | corruptCache
deriving DecidableEq, Repr

/-- Modelled from the spec: `QACache.find_similar_questions` — validates
`0.0 <= min_similarity <= 1.0` and `max_results >= 1`, failing with
`InvalidArgumentError` otherwise, and delegates to `rank`.  The unchanged
collection is returned alongside the result to record that the operation has
no effect on cache state. -/
def find_similar_questions (entries : List CachedQA) (query : String)
    (min_similarity : ℚ) (max_results : Int) :
    Except CacheError (List (CachedQA × ℚ)) × List CachedQA :=
  (if min_similarity < 0 ∨ 1 < min_similarity ∨ max_results < 1 then
    Except.error CacheError.invalidArgument
  else
    Except.ok (rank query entries min_similarity max_results.toNat), entries)

/-- Modelled from the spec: `QACache.store_qa` — build a `CachedQA` with the
current timestamp and append it to the end of the collection, with no
deduplication against existing entries. -/
def store_qa (entries : List CachedQA) (question answer : String)
    (results : List SearchResult) (now : String) : List CachedQA :=
  entries ++ [{ question := question, answer := answer,
                search_results := results, timestamp := now }]

/-- Modelled from the spec: `QACache.get_recent_entries(count)` — up to
`count` entries in descending recency (most recent first); a non-positive
`count` yields the empty sequence. -/
def get_recent_entries (entries : List CachedQA) (count : Int) : List CachedQA :=
  if count ≤ 0 then [] else entries.reverse.take count.toNat

/-- A raw durable record: the JSON-like shape the Persistence Adapter reads
and writes (a string, an array, or an object with string keys). -/
inductive JValue where
  | str (s : String)
  | arr (items : List JValue)
  | obj (fields : List (String × JValue))

/-- Field lookup in a raw object record. -/
def lookupField (fields : List (String × JValue)) (k : String) : Option JValue :=
  (fields.find? (fun p => p.1 == k)).map (fun p => p.2)

/-- Modelled from the spec: serialization of one search result to its raw
`{title, url, snippet}` record. -/
def encodeResult (r : SearchResult) : JValue :=
  JValue.obj [("title", JValue.str r.title), ("url", JValue.str r.url),
              ("snippet", JValue.str r.snippet)]

/-- Modelled from the spec: serialization of one entry to its raw record with
fields `question`, `answer`, `results`, `timestamp`. -/
def encodeEntry (e : CachedQA) : JValue :=
  JValue.obj [("question", JValue.str e.question), ("answer", JValue.str e.answer),
              ("results", JValue.arr (e.search_results.map encodeResult)),
              ("timestamp", JValue.str e.timestamp)]

/-- Modelled from the spec: the Persistence Adapter's `write` — the durable
form is the sequence of raw records of the entries. -/
def writeCache (entries : List CachedQA) : List JValue :=
  entries.map encodeEntry

/-- Parse one raw record back into a search result; `none` on malformed
data. -/
def decodeResult : JValue → Option SearchResult
  | JValue.obj fields =>
    match lookupField fields "title", lookupField fields "url",
        lookupField fields "snippet" with
    | some (JValue.str t), some (JValue.str u), some (JValue.str s) =>
      some { title := t, url := u, snippet := s }
    | _, _, _ => none
  | _ => none

/-- Parse a raw array of search-result records; `none` if any is malformed. -/
def decodeResults : List JValue → Option (List SearchResult)
  | [] => some []
  | j :: rest =>
    match decodeResult j, decodeResults rest with
    | some r, some rs => some (r :: rs)
    | _, _ => none

/-- Parse one raw record back into an entry; `none` on malformed data. -/
def decodeEntry : JValue → Option CachedQA
  | JValue.obj fields =>
    match lookupField fields "question", lookupField fields "answer",
        lookupField fields "results", lookupField fields "timestamp" with
    | some (JValue.str q), some (JValue.str a), some (JValue.arr rs),
        some (JValue.str t) =>
      (match decodeResults rs with
       | some srs => some { question := q, answer := a,
                            search_results := srs, timestamp := t }
       | none => none)
    | _, _, _, _ => none
  | _ => none

/-- Parse the whole durable sequence of raw records; `none` if any record is
malformed. -/
def readCacheRecords : List JValue → Option (List CachedQA)
  | [] => some []
  | j :: rest =>
    match decodeEntry j, readCacheRecords rest with
    | some e, some es => some (e :: es)
    | _, _ => none

/-- The durable resource: either missing or present with raw data. -/
inductive DurableState where
  | missing
  | present (records : List JValue)

/-- Modelled from the spec: the Persistence Adapter's `read` — a missing
durable resource is not an error (empty collection); present-but-unparseable
data signals `CorruptCacheError`. -/
def readCache : DurableState → Except CacheError (List CachedQA)
  | DurableState.missing => Except.ok []
  | DurableState.present records =>
    match readCacheRecords records with
    | some entries => Except.ok entries
    | none => Except.error CacheError.corruptCache

/-- Result of loading the cache: the in-memory collection plus an optional
surfaced warning. -/
structure LoadResult where
  entries : List CachedQA
  warning : Option CacheError
deriving DecidableEq, Repr

/-- Modelled from the spec: the Entry Store's `load` — populate the in-memory
collection from the durable resource; on corrupt data apply none of it, fall
back to the empty collection and surface the error as a warning instead of
letting it escape. -/
def load (d : DurableState) : LoadResult :=
  match readCache d with
  | Except.ok es => { entries := es, warning := none }
  | Except.error e => { entries := [], warning := some e }

/-- A value of the statistics mapping: a count, a size, a timestamp string,
or Python's `None`. -/
inductive StatValue where
  | nat (n : Nat)
  | rat (q : ℚ)
  | str (s : String)
  | null
deriving DecidableEq, Repr

/-- The statistics mapping returned by `get_cache_stats`. -/
abbrev StatsMap := List (String × StatValue)

/-- Key lookup in a statistics mapping; `none` models a Python `KeyError`. -/
def lookupStat (stats : StatsMap) (k : String) : Option StatValue :=
  (stats.find? (fun p => p.1 == k)).map (fun p => p.2)

/-- Megabytes of a byte count. -/
def mbOfBytes (n : Nat) : ℚ :=
  mkRat (n : Int) (1024 * 1024)

/-- Modelled from the spec, amended by its caller `cache_stats_command`
(src/inquisitor.py lines 217-229): `QACache.get_cache_stats` returns the
fields `total_entries`, `cache_size_mb` (the durable serialized size,
recomputed from the byte count passed in), `newest_entry` and `oldest_entry`
(timestamps, `None` when the collection is empty). -/
def get_cache_stats (entries : List CachedQA) (durableBytes : Nat) : StatsMap :=
  [("total_entries", StatValue.nat entries.length),
   ("cache_size_mb", StatValue.rat (mbOfBytes durableBytes)),
   ("newest_entry",
     match entries.getLast? with
     | some e => StatValue.str e.timestamp
     | none => StatValue.null),
   ("oldest_entry",
     match entries.head? with
     | some e => StatValue.str e.timestamp
     | none => StatValue.null)]

/-- Modelled from the spec: the statistics mapping exactly as the claim
words it — fields `total_entries`, `cache_size_bytes`, and
`oldest_entry_timestamp` / `newest_entry_timestamp` absent when the
collection is empty. -/
def get_cache_stats_claimed (entries : List CachedQA) (durableBytes : Nat) : StatsMap :=
  [("total_entries", StatValue.nat entries.length),
   ("cache_size_bytes", StatValue.nat durableBytes)]
  ++ (match entries.head? with
      | some e => [("oldest_entry_timestamp", StatValue.str e.timestamp)]
      | none => [])
  ++ (match entries.getLast? with
      | some e => [("newest_entry_timestamp", StatValue.str e.timestamp)]
      | none => [])

/-- Shallow embedding of `InquisitorCLI.cache_stats_command`
(src/inquisitor.py lines 211-229): each Python bracket access `stats[k]`
raises `KeyError` when `k` is absent, modelled as `none`; the command reads
`total_entries`, `cache_size_mb`, `newest_entry` and `oldest_entry`, in that
order, and returns the values it displayed. -/
def cache_stats_command (stats : StatsMap) : Option (List StatValue) := do
  let te ← lookupStat stats "total_entries"
  let sz ← lookupStat stats "cache_size_mb"
  let ne ← lookupStat stats "newest_entry"
  let oe ← lookupStat stats "oldest_entry"
  some [te, sz, ne, oe]

/-- The externally visible effects of `process_query`, in program order. -/
inductive Effect where
  | printedExactHit (answer : String)
  | printedSimilarHit (answer : String)
  | searchedWeb
  | printedNoResults
  | synthesized
  | displayedAnswer (answer : String)
  | storedResult
  | printedCitations
deriving DecidableEq, Repr

/-- Outcome of `process_query`: its boolean return value, the cache
collection afterwards, and the effects performed. -/
structure PQResult where
  success : Bool
  entries : List CachedQA
  effects : List Effect
deriving DecidableEq, Repr

/-- The cache-miss path of `process_query` (src/inquisitor.py lines 67-100):
search the web, fail on no results, synthesize an answer, display it, store
it when caching is enabled, and print citations in streaming mode. -/
def freshSearchPath (use_cache streaming : Bool) (entries : List CachedQA)
    (query : String) (searcher : String → List SearchResult)
    (synth : String → List SearchResult → String) (now : String) : PQResult :=
  let results := searcher query
  if results = [] then
    { success := false, entries := entries,
      effects := [Effect.searchedWeb, Effect.printedNoResults] }
  else
    let answer := synth query results
    { success := true,
      entries := if use_cache then store_qa entries query answer results now
                 else entries,
      effects := [Effect.searchedWeb, Effect.synthesized,
                  Effect.displayedAnswer answer]
                 ++ (if use_cache then [Effect.storedResult] else [])
                 ++ (if streaming then [Effect.printedCitations] else []) }

/-- Shallow embedding of `InquisitorCLI.process_query` (src/inquisitor.py
lines 36-104): when caching is on and no refresh is forced, an exact cache
hit displays the cached answer and returns `True`; otherwise a similar
question at threshold 0.8 (best single match) is tried; otherwise the fresh
search path runs.  The searcher and synthesizer are oracles passed in. -/
def process_query (use_cache streaming : Bool) (entries : List CachedQA)
    (query : String) (force_refresh : Bool)
    (searcher : String → List SearchResult)
    (synth : String → List SearchResult → String) (now : String) : PQResult :=
  if use_cache && !force_refresh then
    match find_exact_match entries query with
    | some e =>
      { success := true, entries := entries,
        effects := [Effect.printedExactHit e.answer,
                    Effect.displayedAnswer e.answer] }
    | none =>
      match (find_similar_questions entries query (mkRat 4 5) 1).1 with
      | Except.ok ((qa, _) :: _) =>
        { success := true, entries := entries,
          effects := [Effect.printedSimilarHit qa.answer,
                      Effect.displayedAnswer qa.answer] }
      | Except.ok [] =>
        freshSearchPath use_cache streaming entries query searcher synth now
      | Except.error _ =>
        { success := false, entries := entries, effects := [] }
  else
    freshSearchPath use_cache streaming entries query searcher synth now

/-- Sample entry used by the concrete witnesses. -/
def goEntry : CachedQA :=
  { question := "What is Go?", answer := "Go is a language [1]",
    search_results := [{ title := "Go", url := "https://go.dev",
                         snippet := "The Go programming language" }],
    timestamp := "2024-01-01T00:00:00" }

/-- Second sample entry. -/
def pyEntry : CachedQA :=
  { question := "What is Python?", answer := "Python is a language [1]",
    search_results := [], timestamp := "2024-01-02T00:00:00" }

/-- Third sample entry. -/
def rustEntry : CachedQA :=
  { question := "What is Rust?", answer := "Rust is a language [1]",
    search_results := [], timestamp := "2024-01-03T00:00:00" }

/-- The ratio branch of `similarity` is the quotient of the intersection and
union cardinalities of the two token sets. -/
theorem similarity_eq_div (a b : String) :
    similarity a b =
      if tokenSet a = ∅ ∧ tokenSet b = ∅ then 1
      else ((tokenSet a ∩ tokenSet b).card : ℚ) / ((tokenSet a ∪ tokenSet b).card : ℚ) := by
  rw [similarity]
  split
  · rfl
  · rw [Rat.mkRat_eq_div, Int.cast_natCast]

theorem similarity_symm_aux (a b : String) : similarity a b = similarity b a := by
  by_cases ha : tokenSet a = ∅ <;> by_cases hb : tokenSet b = ∅ <;>
    simp [similarity, ha, hb, Finset.inter_comm, Finset.union_comm]

theorem similarity_self_aux (s : String) : similarity s s = 1 := by
  by_cases h : tokenSet s = ∅
  · simp [similarity, h]
  · rw [similarity_eq_div, if_neg (by simp [h]), Finset.inter_self, Finset.union_self]
    exact div_self (by
      exact_mod_cast Finset.card_ne_zero.mpr (Finset.nonempty_iff_ne_empty.mpr h))

theorem similarity_nonneg_aux (a b : String) : 0 ≤ similarity a b := by
  rw [similarity_eq_div]
  split
  · norm_num
  · positivity

theorem similarity_le_one_aux (a b : String) : similarity a b ≤ 1 := by
  rw [similarity_eq_div]
  split
  · exact le_refl 1
  · next h =>
    have hne : (tokenSet a ∪ tokenSet b).Nonempty := by
      rcases not_and_or.mp h with h' | h'
      · exact Finset.Nonempty.mono Finset.subset_union_left
          (Finset.nonempty_iff_ne_empty.mpr h')
      · exact Finset.Nonempty.mono Finset.subset_union_right
          (Finset.nonempty_iff_ne_empty.mpr h')
    have hpos : (0 : ℚ) < ((tokenSet a ∪ tokenSet b).card : ℚ) := by
      exact_mod_cast Finset.card_pos.mpr hne
    rw [div_le_one hpos]
    exact_mod_cast Finset.card_le_card Finset.inter_subset_union

/-- C3: the similarity metric maps every pair of strings into `[0, 1]`, is
symmetric, is reflexive with value 1, and on empty strings gives
`similarity "" "" = 1` and `similarity "x" "" = 0`. -/
theorem similarity_spec (a b s : String) :
    (0 ≤ similarity a b ∧ similarity a b ≤ 1)
    ∧ similarity a b = similarity b a
    ∧ similarity s s = 1
    ∧ similarity "" "" = 1
    ∧ similarity "x" "" = 0 :=
  ⟨⟨similarity_nonneg_aux a b, similarity_le_one_aux a b⟩,
   similarity_symm_aux a b, similarity_self_aux s, by decide, by decide⟩

theorem find_exact_match_mem (entries : List CachedQA) (query : String)
    (e : CachedQA) (h : find_exact_match entries query = some e) :
    e ∈ entries ∧ normalize e.question = normalize query := by
  unfold find_exact_match at h
  refine ⟨List.mem_reverse.mp (List.mem_of_find?_eq_some h), ?_⟩
  have := List.find?_some h
  simpa using this

theorem find_exact_match_eq_none (entries : List CachedQA) (query : String) :
    find_exact_match entries query = none ↔
      ∀ e ∈ entries, normalize e.question ≠ normalize query := by
  unfold find_exact_match
  rw [List.find?_eq_none]
  constructor
  · intro h e he
    have := h e (List.mem_reverse.mpr he)
    simpa using this
  · intro h e he
    have := h e (List.mem_reverse.mp he)
    simpa using this

/-- C1: `find_exact_match` compares the case/whitespace-normalized query
against every entry's normalized question: any returned entry is a stored
entry whose normalized question equals the normalized query, a hit exists
whenever some stored entry matches, and the result is absent exactly when no
stored entry's normalized question equals the normalized query. -/
theorem find_exact_match_spec (entries : List CachedQA) (query : String) :
    (∀ e, find_exact_match entries query = some e →
      e ∈ entries ∧ normalize e.question = normalize query)
    ∧ ((∃ e ∈ entries, normalize e.question = normalize query) →
      (find_exact_match entries query).isSome)
    ∧ (find_exact_match entries query = none ↔
      ∀ e ∈ entries, normalize e.question ≠ normalize query) := by
  refine ⟨find_exact_match_mem entries query, ?_, find_exact_match_eq_none entries query⟩
  rintro ⟨e, he, hn⟩
  rw [Option.isSome_iff_ne_none]
  intro hnone
  exact (find_exact_match_eq_none entries query).mp hnone e he hn

/-- Witness for C1: storing "What is Go?" and querying "what is go?" yields a
hit, namely that entry. -/
theorem find_exact_match_spec_witness :
    (find_exact_match [goEntry] "what is go?").isSome
    ∧ find_exact_match [goEntry] "what is go?" = some goEntry :=
  ⟨(find_exact_match_spec [goEntry] "what is go?").2.1
      ⟨goEntry, by decide, by decide⟩,
   by decide⟩

theorem find_similar_questions_fst (entries : List CachedQA) (query : String)
    (ms : ℚ) (mr : Int) :
    (find_similar_questions entries query ms mr).1 =
      if ms < 0 ∨ 1 < ms ∨ mr < 1 then Except.error CacheError.invalidArgument
      else Except.ok (rank query entries ms mr.toNat) := rfl

/-- C4: `find_similar_questions` fails with `InvalidArgumentError` exactly
when `min_similarity` lies outside `[0, 1]` (in particular at 1.1) or
`max_results < 1`, and in every case leaves the cache collection unchanged. -/
theorem find_similar_questions_spec (entries : List CachedQA) (query : String)
    (ms : ℚ) (mr : Int) :
    ((ms < 0 ∨ 1 < ms ∨ mr < 1) ↔
      (find_similar_questions entries query ms mr).1 =
        Except.error CacheError.invalidArgument)
    ∧ (find_similar_questions entries query ms mr).2 = entries
    ∧ (find_similar_questions entries query (mkRat 11 10) mr).1 =
        Except.error CacheError.invalidArgument := by
  refine ⟨?_, rfl, ?_⟩
  · rw [find_similar_questions_fst]
    split
    · next h => simp [h]
    · next h => simp [h]
  · rw [find_similar_questions_fst, if_pos]
    right; left
    decide

/-- Witness for C4: a threshold of 1.1 is rejected with the collection
untouched. -/
theorem find_similar_questions_spec_witness :
    (find_similar_questions [goEntry] "q" (mkRat 11 10) 1).1 =
      Except.error CacheError.invalidArgument
    ∧ (find_similar_questions [goEntry] "q" (mkRat 11 10) 1).2 = [goEntry] :=
  ⟨(find_similar_questions_spec [goEntry] "q" (mkRat 11 10) 1).1.mp
      (Or.inr (Or.inl (by decide))),
   (find_similar_questions_spec [goEntry] "q" (mkRat 11 10) 1).2.1⟩

/-- C5: `store_qa` never deduplicates — storing a question whose normalized
form equals an existing entry's keeps every old entry (count grows by one,
prefix untouched, new entry appended at the end), and a subsequent
`find_exact_match` of that question returns the newly stored entry. -/
theorem store_qa_spec (entries : List CachedQA) (q a : String)
    (results : List SearchResult) (now : String) (e0 : CachedQA)
    (h0 : e0 ∈ entries) (hq : normalize e0.question = normalize q) :
    (store_qa entries q a results now).length = entries.length + 1
    ∧ e0 ∈ store_qa entries q a results now
    ∧ (∀ e ∈ entries, e ∈ store_qa entries q a results now)
    ∧ (∀ i, i < entries.length →
        (store_qa entries q a results now)[i]? = entries[i]?)
    ∧ (store_qa entries q a results now).getLast? =
        some { question := q, answer := a, search_results := results, timestamp := now }
    ∧ find_exact_match (store_qa entries q a results now) q =
        some { question := q, answer := a, search_results := results, timestamp := now } := by
  refine ⟨by simp [store_qa], ?_, ?_, ?_, ?_, ?_⟩
  · exact List.mem_append_left _ h0
  · intro e he
    exact List.mem_append_left _ he
  · intro i hi
    unfold store_qa
    rw [List.getElem?_append, if_pos hi]
  · exact List.getLast?_concat _
  · unfold find_exact_match store_qa
    rw [List.reverse_append]
    simp

/-- Witness for C5: storing a normalized duplicate of the sample entry keeps
both and makes lookup return the new one. -/
theorem store_qa_spec_witness :
    (store_qa [goEntry] "what is GO?" "Go, again" [] "t9").length = 2
    ∧ find_exact_match (store_qa [goEntry] "what is GO?" "Go, again" [] "t9")
        "what is GO?" =
      some { question := "what is GO?", answer := "Go, again",
             search_results := [], timestamp := "t9" } := by
  have h := store_qa_spec [goEntry] "what is GO?" "Go, again" [] "t9" goEntry
    (by decide) (by decide)
  exact ⟨h.1, h.2.2.2.2.2⟩

/-- C6: `get_recent_entries` returns up to `count` entries most recent first
(a window of the reversed insertion order), the empty sequence for
`count ≤ 0`, the whole reversed collection when `count` exceeds its size,
and after storing three entries a request for two returns the two most
recently stored, most recent first. -/
theorem get_recent_entries_spec (entries : List CachedQA) (count : Int) :
    (count ≤ 0 → get_recent_entries entries count = [])
    ∧ ((entries.length : Int) ≤ count → get_recent_entries entries count = entries.reverse)
    ∧ (get_recent_entries entries count).length ≤ count.toNat
    ∧ (∀ i, i < (get_recent_entries entries count).length →
        (get_recent_entries entries count)[i]? = entries.reverse[i]?)
    ∧ (∀ e1 e2 e3 : CachedQA, get_recent_entries [e1, e2, e3] 2 = [e3, e2]) := by
  refine ⟨fun h => by simp [get_recent_entries, h], ?_, ?_, ?_, fun e1 e2 e3 => rfl⟩
  · intro h
    unfold get_recent_entries
    split
    · next hle =>
      have : entries.length = 0 := by omega
      simp [List.length_eq_zero.mp this]
    · next hgt =>
      apply List.take_of_length_le
      rw [List.length_reverse]
      omega
  · unfold get_recent_entries
    split
    · simp
    · exact le_trans (List.length_take_le _ _) (le_refl _)
  · intro i hi
    unfold get_recent_entries at hi ⊢
    split at hi
    · simp at hi
    · next h =>
      have hlt : i < count.toNat := lt_of_lt_of_le hi (List.length_take_le _ _)
      rw [if_neg h, List.getElem?_take, if_pos hlt]

/-- Witness for C6: concrete listings over the three sample entries. -/
theorem get_recent_entries_spec_witness :
    get_recent_entries [goEntry, pyEntry, rustEntry] 2 = [rustEntry, pyEntry]
    ∧ get_recent_entries [goEntry] (-1) = []
    ∧ get_recent_entries [goEntry, pyEntry] 5 = [pyEntry, goEntry] :=
  ⟨(get_recent_entries_spec [] 0).2.2.2.2 goEntry pyEntry rustEntry,
   (get_recent_entries_spec [goEntry] (-1)).1 (by decide),
   (get_recent_entries_spec [goEntry, pyEntry] 5).2.1 (by decide)⟩

theorem insertDesc_perm (p : CachedQA × ℚ) (l : List (CachedQA × ℚ)) :
    List.Perm (insertDesc p l) (p :: l) := by
  induction l with
  | nil => exact List.Perm.refl _
  | cons q t ih =>
    unfold insertDesc
    split
    · exact (ih.cons q).trans (List.Perm.swap p q t)
    · exact List.Perm.refl _

theorem sortDesc_perm (l : List (CachedQA × ℚ)) : List.Perm (sortDesc l) l := by
  induction l with
  | nil => exact List.Perm.refl _
  | cons p t ih =>
    exact (insertDesc_perm p (sortDesc t)).trans (ih.cons p)

theorem insertDesc_pairwise (p : CachedQA × ℚ) (l : List (CachedQA × ℚ))
    (h : l.Pairwise (fun a b => b.2 ≤ a.2)) :
    (insertDesc p l).Pairwise (fun a b => b.2 ≤ a.2) := by
  induction l with
  | nil => simp [insertDesc]
  | cons q t ih =>
    rw [List.pairwise_cons] at h
    unfold insertDesc
    split
    · next hlt =>
      rw [List.pairwise_cons]
      refine ⟨?_, ih h.2⟩
      intro x hx
      rcases List.mem_cons.mp ((insertDesc_perm p t).mem_iff.mp hx) with hxp | hxt
      · rw [hxp]
        exact le_of_lt hlt
      · exact h.1 x hxt
    · next hge =>
      rw [List.pairwise_cons]
      refine ⟨?_, List.pairwise_cons.mpr h⟩
      intro x hx
      rcases List.mem_cons.mp hx with hxq | hxt
      · rw [hxq]
        exact le_of_not_lt hge
      · exact le_trans (h.1 x hxt) (le_of_not_lt hge)

theorem sortDesc_pairwise (l : List (CachedQA × ℚ)) :
    (sortDesc l).Pairwise (fun a b => b.2 ≤ a.2) := by
  induction l with
  | nil => simp [sortDesc]
  | cons p t ih => exact insertDesc_pairwise p (sortDesc t) ih

theorem insertDesc_filter_eq (p : CachedQA × ℚ) (l : List (CachedQA × ℚ))
    (c : ℚ) (hc : p.2 = c) :
    (insertDesc p l).filter (fun x => decide (x.2 = c)) =
      p :: l.filter (fun x => decide (x.2 = c)) := by
  induction l with
  | nil => simp [insertDesc, hc]
  | cons q t ih =>
    unfold insertDesc
    split
    · next hlt =>
      have hq : ¬(q.2 = c) := by
        intro h
        rw [← hc] at h
        rw [h] at hlt
        exact lt_irrefl _ hlt
      simp [List.filter_cons, hq, ih]
    · simp [List.filter_cons, hc]

theorem insertDesc_filter_ne (p : CachedQA × ℚ) (l : List (CachedQA × ℚ))
    (c : ℚ) (hc : ¬(p.2 = c)) :
    (insertDesc p l).filter (fun x => decide (x.2 = c)) =
      l.filter (fun x => decide (x.2 = c)) := by
  induction l with
  | nil => simp [insertDesc, hc]
  | cons q t ih =>
    unfold insertDesc
    split
    · simp [List.filter_cons, ih]
    · simp [List.filter_cons, hc]

theorem sortDesc_filter (l : List (CachedQA × ℚ)) (c : ℚ) :
    (sortDesc l).filter (fun x => decide (x.2 = c)) =
      l.filter (fun x => decide (x.2 = c)) := by
  induction l with
  | nil => rfl
  | cons p t ih =>
    by_cases hc : p.2 = c
    · rw [sortDesc, insertDesc_filter_eq p _ c hc, ih, List.filter_cons]
      simp [hc]
    · rw [sortDesc, insertDesc_filter_ne p _ c hc, ih, List.filter_cons]
      simp [hc]

theorem mem_aboveThreshold (query : String) (entries : List CachedQA)
    (ms : ℚ) (p : CachedQA × ℚ) :
    p ∈ aboveThreshold query entries ms ↔
      (p.1 ∈ entries ∧ p.2 = similarity query p.1.question ∧ ms ≤ p.2) := by
  unfold aboveThreshold scoreAll
  rw [List.mem_filter, List.mem_map]
  constructor
  · rintro ⟨⟨e, he, rfl⟩, hms⟩
    exact ⟨he, rfl, by simpa using hms⟩
  · rintro ⟨he, hsim, hms⟩
    exact ⟨⟨p.1, he, by rw [← hsim]⟩, by simpa using hms⟩

/-- C2: `rank` scores every entry against the query, retains exactly those
clearing the threshold, sorts them descending by score with a stable sort
(entries of equal score keep their insertion order, witnessed by the filter
equations per score class over the insertion-ordered `aboveThreshold` list),
truncates to `max_results` (the output is an initial segment of the full
sorted list), and maps the empty collection to the empty list. -/
theorem rank_spec (query : String) (entries : List CachedQA) (ms : ℚ) (mr : Nat) :
    rank query [] ms mr = []
    ∧ (rank query entries ms mr).length ≤ mr
    ∧ (∀ p ∈ rank query entries ms mr,
        p.1 ∈ entries ∧ p.2 = similarity query p.1.question ∧ ms ≤ p.2)
    ∧ (rank query entries ms mr).Pairwise (fun a b => b.2 ≤ a.2)
    ∧ List.Perm (sortDesc (aboveThreshold query entries ms)) (aboveThreshold query entries ms)
    ∧ (∀ e ∈ entries, ms ≤ similarity query e.question →
        (e, similarity query e.question) ∈ sortDesc (aboveThreshold query entries ms))
    ∧ (∀ c : ℚ,
        (sortDesc (aboveThreshold query entries ms)).filter (fun x => decide (x.2 = c)) =
          (aboveThreshold query entries ms).filter (fun x => decide (x.2 = c)))
    ∧ (∃ rest, rank query entries ms mr ++ rest =
        sortDesc (aboveThreshold query entries ms)) := by
  refine ⟨by simp [rank, aboveThreshold, scoreAll, sortDesc], List.length_take_le _ _, ?_, ?_,
    sortDesc_perm _, ?_, sortDesc_filter _, ?_⟩
  · intro p hp
    have hp' : p ∈ sortDesc (aboveThreshold query entries ms) :=
      List.mem_of_mem_take hp
    have := (sortDesc_perm _).mem_iff.mp hp'
    exact (mem_aboveThreshold query entries ms p).mp this
  · exact (sortDesc_pairwise _).sublist (List.take_sublist _ _)
  · intro e he hms
    apply (sortDesc_perm _).mem_iff.mpr
    exact (mem_aboveThreshold query entries ms _).mpr ⟨he, rfl, hms⟩
  · exact ⟨_, List.take_append_drop _ _⟩

/-- Witness for C2: the empty collection ranks to the empty list, and the
sample entry (similarity 1 at threshold 0.8) appears in the sorted
candidate list. -/
theorem rank_spec_witness :
    rank "what is go?" [] (mkRat 4 5) 1 = []
    ∧ (goEntry, similarity "what is go?" goEntry.question) ∈
        sortDesc (aboveThreshold "what is go?" [goEntry] (mkRat 4 5)) :=
  ⟨(rank_spec "what is go?" [] (mkRat 4 5) 1).1,
   (rank_spec "what is go?" [goEntry] (mkRat 4 5) 1).2.2.2.2.2.1 goEntry
      (by decide) (by decide)⟩

theorem decodeResult_encodeResult (r : SearchResult) :
    decodeResult (encodeResult r) = some r := rfl

theorem decodeResults_encode (rs : List SearchResult) :
    decodeResults (rs.map encodeResult) = some rs := by
  induction rs with
  | nil => rfl
  | cons r t ih =>
    simp [decodeResults, decodeResult_encodeResult, ih]

theorem decodeEntry_encodeEntry (e : CachedQA) :
    decodeEntry (encodeEntry e) = some e := by
  simp [decodeEntry, encodeEntry, lookupField, decodeResults_encode]

/-- C7: persistence round-trip — for every sequence of entries, reading back
the written durable records reconstructs an equal sequence, same question,
answer, results and timestamp per record, in the same order. -/
theorem write_read_roundtrip (entries : List CachedQA) :
    readCacheRecords (writeCache entries) = some entries := by
  induction entries with
  | nil => rfl
  | cons e t ih =>
    simp only [writeCache, List.map_cons] at ih ⊢
    simp [readCacheRecords, decodeEntry_encodeEntry, ih]

/-- C8: loading corrupt durable data signals `CorruptCacheError` as a
surfaced warning without applying any of it — the in-memory collection is
left empty and `load` returns instead of failing — while a missing durable
resource is no error and yields the empty collection with no warning. -/
theorem load_spec (records : List JValue)
    (h : readCacheRecords records = none) :
    load (DurableState.present records) =
      { entries := [], warning := some CacheError.corruptCache }
    ∧ load DurableState.missing = { entries := [], warning := none } := by
  refine ⟨?_, rfl⟩
  simp [load, readCache, h]

/-- Witness for C8: a durable record that is a bare string cannot be parsed
into an entry, and loading it yields the empty collection plus the corrupt
cache warning. -/
theorem load_spec_witness :
    load (DurableState.present [JValue.str "corrupt"]) =
      { entries := [], warning := some CacheError.corruptCache } :=
  (load_spec [JValue.str "corrupt"] rfl).1

/-- C9 fails on the code: `cache_stats_command` (src/inquisitor.py lines
211-229) reads the keys `total_entries`, `cache_size_mb`, `newest_entry` and
`oldest_entry`; on a statistics mapping with exactly the fields the claim
names (here built for one stored entry and a 42-byte durable form) the
`cache_size_mb` access has no key to read — the claimed field set does not
match the program. -/
theorem cache_stats_claimed_counterexample :
    cache_stats_command (get_cache_stats_claimed [goEntry] 42) = none
    ∧ lookupStat (get_cache_stats_claimed [goEntry] 42) "cache_size_mb" = none
    ∧ lookupStat (get_cache_stats_claimed [goEntry] 42) "cache_size_bytes" =
        some (StatValue.nat 42) := by
  refine ⟨rfl, rfl, rfl⟩

/-- C9 (amended): `get_cache_stats` returns a mapping with exactly the fields
`total_entries`, `cache_size_mb`, `newest_entry` and `oldest_entry` — the
fields its caller `cache_stats_command` reads, which therefore never hits a
missing key — where `cache_size_mb` is recomputed from the durable
serialized byte size and the two entry-timestamp fields are null (present
but empty), not absent, whenever the collection is empty. -/
theorem get_cache_stats_spec (entries : List CachedQA) (durableBytes : Nat) :
    (get_cache_stats entries durableBytes).map (fun p => p.1) =
      ["total_entries", "cache_size_mb", "newest_entry", "oldest_entry"]
    ∧ (cache_stats_command (get_cache_stats entries durableBytes)).isSome
    ∧ lookupStat (get_cache_stats entries durableBytes) "total_entries" =
        some (StatValue.nat entries.length)
    ∧ lookupStat (get_cache_stats entries durableBytes) "cache_size_mb" =
        some (StatValue.rat (mbOfBytes durableBytes))
    ∧ (entries = [] →
        lookupStat (get_cache_stats entries durableBytes) "newest_entry" =
          some StatValue.null
        ∧ lookupStat (get_cache_stats entries durableBytes) "oldest_entry" =
          some StatValue.null)
    ∧ (entries ≠ [] → ∃ e, entries.getLast? = some e ∧
        lookupStat (get_cache_stats entries durableBytes) "newest_entry" =
          some (StatValue.str e.timestamp)) := by
  refine ⟨rfl, rfl, rfl, rfl, ?_, ?_⟩
  · rintro rfl
    exact ⟨rfl, rfl⟩
  · intro hne
    have hsome : entries.getLast?.isSome := List.getLast?_isSome.mpr hne
    rcases h : entries.getLast? with _ | e
    · rw [h] at hsome
      simp at hsome
    · exact ⟨e, rfl, by simp [get_cache_stats, lookupStat, h]⟩

/-- Witness for C9 (amended): on the empty collection the timestamp fields
are null, and on a nonempty one the command reads every field it needs. -/
theorem get_cache_stats_spec_witness :
    lookupStat (get_cache_stats [] 0) "newest_entry" = some StatValue.null
    ∧ (cache_stats_command (get_cache_stats [goEntry] 42)).isSome :=
  ⟨((get_cache_stats_spec [] 0).2.2.2.2.1 rfl).1,
   (get_cache_stats_spec [goEntry] 42).2.1⟩

/-- C10: with caching enabled and no forced refresh, an exact cache hit makes
`process_query` return success after displaying that entry's cached answer,
with the cache collection unchanged and with no web search, no synthesis and
no `store_qa` among the performed effects. -/
theorem process_query_cache_hit (streaming : Bool) (entries : List CachedQA)
    (query : String) (searcher : String → List SearchResult)
    (synth : String → List SearchResult → String) (now : String)
    (e : CachedQA) (h : find_exact_match entries query = some e) :
    process_query true streaming entries query false searcher synth now =
      { success := true, entries := entries,
        effects := [Effect.printedExactHit e.answer,
                    Effect.displayedAnswer e.answer] }
    ∧ (process_query true streaming entries query false searcher synth now).entries
        = entries
    ∧ Effect.searchedWeb ∉
        (process_query true streaming entries query false searcher synth now).effects
    ∧ Effect.synthesized ∉
        (process_query true streaming entries query false searcher synth now).effects
    ∧ Effect.storedResult ∉
        (process_query true streaming entries query false searcher synth now).effects
    ∧ Effect.displayedAnswer e.answer ∈
        (process_query true streaming entries query false searcher synth now).effects := by
  have h1 : process_query true streaming entries query false searcher synth now =
      { success := true, entries := entries,
        effects := [Effect.printedExactHit e.answer,
                    Effect.displayedAnswer e.answer] } := by
    simp [process_query, h]
  rw [h1]
  refine ⟨rfl, rfl, by simp, by simp, by simp, by simp⟩

/-- Witness for C10: a hit on the stored sample question is served from the
cache with no search, synthesis or store. -/
theorem process_query_cache_hit_witness :
    process_query true true [goEntry] "what is go?" false (fun _ => [])
        (fun _ _ => "") "t" =
      { success := true, entries := [goEntry],
        effects := [Effect.printedExactHit goEntry.answer,
                    Effect.displayedAnswer goEntry.answer] } :=
  (process_query_cache_hit true [goEntry] "what is go?" (fun _ => [])
    (fun _ _ => "") "t" goEntry (by decide)).1

end Inquisitor
